import Mathlib

/-!
Verification of the SQuAD feature-conversion pipeline (`setup_bert.py`).

The Python source is shallowly embedded: pure functions become Lean
functions, Python `int` becomes `Int` (or `Nat` where the source value is
a length or list index), the possibly non-terminating sliding-window
`while` loop becomes a fuel-indexed function returning `Option`
(`none` = the fuel ran out, so the loop did not finish in that many
iterations), and code that can raise becomes `Except`.  The external
WordPiece tokenizer is abstracted as a `Tokenizer` record.  The float
score `min(left, right) + 0.01 * span.length` is embedded exactly as the
scaled integer `min(left, right) * 100 + span.length`, which preserves
all comparisons the code makes between scores of spans of equal length
and orders distinct rational scores identically.
-/

set_option autoImplicit false

/-- A sliding-window chunk over the sub-word-tokenized document:
`collections.namedtuple("DocSpan", ["start", "length"])` in the source. -/
structure DocSpan where
  start : Int
  length : Int
deriving DecidableEq

instance : Inhabited DocSpan := ⟨⟨0, 0⟩⟩

/-- The containment test of `_check_is_max_context` (lines 131-134):
a position is inside the span iff `doc_span.start <= position` and
`position <= doc_span.start + doc_span.length - 1`. -/
def containsTok (sp : DocSpan) (p : Int) : Bool :=
  decide (sp.start ≤ p) && decide (p ≤ sp.start + sp.length - 1)

/-- The score of line 137, `min(num_left_context, num_right_context) +
0.01 * doc_span.length`, scaled by 100 to stay in exact integers. -/
def spanScore (sp : DocSpan) (p : Int) : Int :=
  min (p - sp.start) (sp.start + sp.length - 1 - p) * 100 + sp.length

/-- One iteration of the loop of `_check_is_max_context` (lines 129-140):
skip spans not containing the position, otherwise update the running
best on a strictly greater score. -/
def bestSpanStep (p : Int) (best : Option (Int × Nat)) (idx : Nat) (sp : DocSpan) :
    Option (Int × Nat) :=
  if containsTok sp p then
    match best with
    | none => some (spanScore sp p, idx)
    | some (bs, bi) =>
        if bs < spanScore sp p then some (spanScore sp p, idx) else some (bs, bi)
  else best

/-- The whole loop of `_check_is_max_context`, carrying the enumeration
index and the running `(best_score, best_span_index)`. -/
def bestSpanLoop (p : Int) : List DocSpan → Nat → Option (Int × Nat) → Option (Int × Nat)
  | [], _, best => best
  | sp :: rest, idx, best => bestSpanLoop p rest (idx + 1) (bestSpanStep p best idx sp)

/-- Lines 108-142, `_check_is_max_context(doc_spans, cur_span_index,
position)`: run the loop from `best_score = best_span_index = None`
and compare `cur_span_index` with the final best index (a comparison
with `None` is false in Python). -/
def _check_is_max_context (doc_spans : List DocSpan) (cur_span_index : Nat) (position : Int) :
    Bool :=
  match bestSpanLoop position doc_spans 0 none with
  | some (_, bi) => cur_span_index == bi
  | none => false

/-- The specification-side predicate of claim C2: `i` is a span of the
list that contains `position` and achieves the maximum score among all
spans containing it. -/
def AchievesMax (doc_spans : List DocSpan) (i : Nat) (p : Int) : Prop :=
  i < doc_spans.length ∧ containsTok (doc_spans.getD i default) p = true ∧
    ∀ j : Fin doc_spans.length, containsTok (doc_spans.get j) p = true →
      spanScore (doc_spans.get j) p ≤ spanScore (doc_spans.getD i default) p

instance (doc_spans : List DocSpan) (i : Nat) (p : Int) :
    Decidable (AchievesMax doc_spans i p) := by
  unfold AchievesMax; infer_instance

/-- Lines 194-196 of the sliding-window loop: the `length` of the span
starting at offset `s`, i.e. `len(all_doc_tokens) - start_offset` capped
at `max_tokens_for_doc`. -/
def spanLengthAt (n mtd s : Int) : Int :=
  if n - s > mtd then mtd else n - s

/-- The sliding-window span generation loop of
`convert_examples_to_features` (lines 191-200), fuel-indexed.  `n` is
`len(all_doc_tokens)`, `mtd` is `max_tokens_for_doc`, `s` is
`start_offset`.  `none` means the loop did not finish within `fuel`
iterations. -/
def docSpansLoopI (n mtd stride : Int) : Int → Nat → Option (List DocSpan)
  | _, 0 => none
  | s, fuel + 1 =>
    if s < n then
      if s + spanLengthAt n mtd s = n then some [⟨s, spanLengthAt n mtd s⟩]
      else
        match docSpansLoopI n mtd stride (s + min (spanLengthAt n mtd s) stride) fuel with
        | some rest => some (⟨s, spanLengthAt n mtd s⟩ :: rest)
        | none => none
    else some []

/-- The number of token positions shared by two spans. -/
def overlapLen (a b : DocSpan) : Int :=
  max 0 (min (a.start + a.length) (b.start + b.length) - max a.start b.start)

/-- The external WordPiece tokenizer, consumed as a capability: `tokenize`
splits a text into sub-word tokens and `convert_tokens_to_ids` maps each
token to its numeric vocabulary id (so on a token list it is a `List.map`). -/
structure Tokenizer where
  tokenize : String → List String
  token_to_id : String → Int

/-- Python `" ".join(tokens)`. -/
def joinTokens (tokens : List String) : String :=
  String.intercalate " " tokens

/-- The Python slice `l[a:b]` for the non-negative indices the pipeline
uses (clamping past-the-end indices, empty when `b ≤ a`). -/
def pySlice {α : Type} (l : List α) (a b : Int) : List α :=
  (l.take b.toNat).drop a.toNat

/-- Python `range(a, b)` over `Int`. -/
def intRange (a b : Int) : List Int :=
  (List.range (b - a).toNat).map (fun i : Nat => a + (i : Int))

/-- Python `range(a, b, -1)` over `Int`: `a, a-1, ...` down to `b + 1`. -/
def intRangeDown (a b : Int) : List Int :=
  (List.range (a - b).toNat).map (fun i : Nat => a - (i : Int))

/-- The inner loop of `_improve_answer_span` (lines 100-103): scan
`new_end` descending, returning the first sub-range whose detokenized
text equals the tokenized answer text. -/
def improveInner (doc_tokens : List String) (tok_answer_text : String) (ns : Int) :
    List Int → Option (Int × Int)
  | [] => none
  | ne :: rest =>
      if joinTokens (pySlice doc_tokens ns (ne + 1)) = tok_answer_text then some (ns, ne)
      else improveInner doc_tokens tok_answer_text ns rest

/-- The outer loop of `_improve_answer_span` (lines 99-103): scan
`new_start` ascending, running the inner loop for each start. -/
def improveOuter (doc_tokens : List String) (tok_answer_text : String) (input_end : Int) :
    List Int → Option (Int × Int)
  | [] => none
  | ns :: rest =>
      match improveInner doc_tokens tok_answer_text ns (intRangeDown input_end (ns - 1)) with
      | some r => some r
      | none => improveOuter doc_tokens tok_answer_text input_end rest

/-- Lines 71-105, `_improve_answer_span(doc_tokens, input_start,
input_end, tokenizer, orig_answer_text)`: search all sub-ranges of
`[input_start, input_end]` for an exact match of the tokenized answer
text; fall back to the original span. -/
def _improve_answer_span (doc_tokens : List String) (input_start input_end : Int)
    (tokenizer : Tokenizer) (orig_answer_text : String) : Int × Int :=
  match improveOuter doc_tokens (joinTokens (tokenizer.tokenize orig_answer_text))
      input_end (intRange input_start (input_end + 1)) with
  | some r => r
  | none => (input_start, input_end)

/-- The candidate sub-ranges of the spec sentence for claim C6, in the
spec's search order: outer loop over `new_start` ascending, inner loop
over `new_end` descending from `input_end`. -/
def improveSpanCandidates (input_start input_end : Int) : List (Int × Int) :=
  (intRange input_start (input_end + 1)).flatMap
    (fun ns => (intRangeDown input_end (ns - 1)).map (fun ne => (ns, ne)))

/-- Modelled from the spec sentence of claim C6 (not from the source):
"return the first exact match found, else return the original span
unchanged", over the flattened search-order candidate list. -/
def improveSpanSpec (doc_tokens : List String) (input_start input_end : Int)
    (tokenizer : Tokenizer) (orig_answer_text : String) : Int × Int :=
  match (improveSpanCandidates input_start input_end).find?
      (fun c => joinTokens (pySlice doc_tokens c.1 (c.2 + 1))
        == joinTokens (tokenizer.tokenize orig_answer_text)) with
  | some r => r
  | none => (input_start, input_end)

/-- Class `SquadExample` (lines 18-38): one training/test example.
Fields that Python leaves as `None` outside training mode are `Option`s. -/
structure SquadExample where
  qas_id : String
  question_text : String
  doc_tokens : List String
  orig_answer_text : Option String
  start_position : Option Int
  end_position : Option Int
  is_impossible : Bool
deriving DecidableEq

/-- Class `InputFeatures` (lines 41-68), restricted to the fields the
claims are about (the `unique_id` / `example_index` back-references are
plain counters that no claim mentions). -/
structure Feature where
  doc_span_index : Nat
  tokens : List String
  token_to_orig_map : List (Nat × Nat)
  token_is_max_context : List (Nat × Bool)
  input_ids : List Int
  input_mask : List Nat
  segment_ids : List Nat
  start_position : Option Int
  end_position : Option Int
  is_impossible : Bool
deriving DecidableEq, Inhabited

/-- Lines 153-156: tokenized question, truncated to `max_query_length`. -/
def queryTokensOf (tokenizer : Tokenizer) (max_query_length : Nat) (ex : SquadExample) :
    List String :=
  let q := tokenizer.tokenize ex.question_text
  if q.length > max_query_length then q.take max_query_length else q

/-- Lines 158-166: `all_doc_tokens`, the concatenation of the sub-word
tokenizations of the word tokens. -/
def allDocTokens (tokenizer : Tokenizer) (doc_tokens : List String) : List String :=
  doc_tokens.flatMap tokenizer.tokenize

/-- Lines 158-166: `tok_to_orig_index`, mapping each sub-word position to
the word-token index it came from. -/
def tokToOrigIndex (tokenizer : Tokenizer) (doc_tokens : List String) : List Nat :=
  doc_tokens.enum.flatMap (fun it => (tokenizer.tokenize it.2).map (fun _ => it.1))

/-- Lines 158-166: `orig_to_tok_index`, mapping each word-token index to
the position of its first sub-word token. -/
def origToTokIndex (tokenizer : Tokenizer) (doc_tokens : List String) : List Nat :=
  (List.range doc_tokens.length).map
    (fun i => ((doc_tokens.take i).flatMap tokenizer.tokenize).length)

/-- Lines 173-181: project the word-token answer span to sub-word
coordinates and refine it with `_improve_answer_span` (training mode,
possible examples only; other modes never read these values). -/
def refinedTokPositions (tokenizer : Tokenizer) (ex : SquadExample) : Int × Int :=
  let all := allDocTokens tokenizer ex.doc_tokens
  let o2t := origToTokIndex tokenizer ex.doc_tokens
  let sp := (ex.start_position.getD 0).toNat
  let ep := ex.end_position.getD 0
  let tok_start_position : Int := o2t.getD sp 0
  let tok_end_position : Int :=
    if ep < (ex.doc_tokens.length : Int) - 1 then (o2t.getD (ep + 1).toNat 0 : Int) - 1
    else (all.length : Int) - 1
  _improve_answer_span all tok_start_position tok_end_position tokenizer
    (ex.orig_answer_text.getD "")

/-- Line 184: `max_tokens_for_doc = max_seq_length - len(query_tokens) - 3`. -/
def maxTokensForDoc (max_seq_length qlen : Nat) : Int :=
  (max_seq_length : Int) - qlen - 3

/-- Lines 215-221, the `token_is_max_context` entries of the feature for
span index `j`: the key recorded for the `i`-th context token is
`len(tokens)` at insertion time, i.e. `len(query_tokens) + 2 + i`. -/
def tokenIsMaxContextEntries (doc_spans : List DocSpan) (j : Nat) (sp : DocSpan)
    (qlen : Nat) : List (Nat × Bool) :=
  (List.range sp.length.toNat).map
    (fun i : Nat => (qlen + 2 + i, _check_is_max_context doc_spans j (sp.start + (i : Int))))

/-- Lines 233-237: the zero-padding `while` loop, which appends `pad`
until the list reaches `m` elements (a no-op on longer lists). -/
def padTo {α : Type} (pad : α) (m : Nat) (l : List α) : List α :=
  l ++ List.replicate (m - l.length) pad

/-- Lines 202-299, the body of the per-span loop: assemble `tokens` and
`segment_ids`, the context maps, numeric ids, attention mask, padding,
and the training labels.  `ts, te` are `tok_start_position` /
`tok_end_position` of the enclosing example. -/
def buildFeature (tokenizer : Tokenizer) (max_seq_length : Nat) (is_training : Bool)
    (query_tokens all_doc_tokens : List String) (tok_to_orig_index : List Nat)
    (doc_spans : List DocSpan) (ts te : Int) (imp : Bool) (j : Nat) (sp : DocSpan) :
    Feature :=
  let qlen := query_tokens.length
  let docSlice := (List.range sp.length.toNat).map
    (fun i : Nat => all_doc_tokens.getD (sp.start + (i : Int)).toNat "")
  let tokens := "[CLS]" :: query_tokens ++ ["[SEP]"] ++ docSlice ++ ["[SEP]"]
  let segment_ids := 0 :: List.replicate qlen 0 ++ [0] ++
    List.replicate sp.length.toNat 1 ++ [1]
  let token_to_orig_map := (List.range sp.length.toNat).map
    (fun i : Nat => (qlen + 2 + i, tok_to_orig_index.getD (sp.start + (i : Int)).toNat 0))
  let input_ids := tokens.map tokenizer.token_to_id
  let input_mask := List.replicate input_ids.length 1
  let labels : Option (Int × Int) :=
    if is_training && !imp then
      let doc_start := sp.start
      let doc_end := sp.start + sp.length - 1
      if !(decide (ts ≥ doc_start) && decide (te ≤ doc_end)) then some (0, 0)
      else some (ts - doc_start + (qlen + 2), te - doc_start + (qlen + 2))
    else if is_training && imp then some (0, 0)
    else none
  { doc_span_index := j
    tokens := tokens
    token_to_orig_map := token_to_orig_map
    token_is_max_context := tokenIsMaxContextEntries doc_spans j sp qlen
    input_ids := padTo 0 max_seq_length input_ids
    input_mask := padTo 0 max_seq_length input_mask
    segment_ids := padTo 0 max_seq_length segment_ids
    start_position := labels.map Prod.fst
    end_position := labels.map Prod.snd
    is_impossible := imp }

/-- Lines 168-181: the `(tok_start_position, tok_end_position)` pair as
set up per example — `(-1, -1)` for impossible training examples, the
refined projection for possible training examples, and unused (Python
`None`, modelled as `(0, 0)`) outside training. -/
def tokPositionsOf (is_training : Bool) (tokenizer : Tokenizer) (ex : SquadExample) :
    Int × Int :=
  if is_training && ex.is_impossible then ((-1 : Int), (-1 : Int))
  else if is_training then refinedTokPositions tokenizer ex
  else ((0 : Int), (0 : Int))

/-- Lines 152-300, the per-example body of `convert_examples_to_features`:
`none` when the sliding-window loop does not finish within `fuel`
iterations, otherwise the features of the example's spans in order. -/
def convertExampleFeatures (tokenizer : Tokenizer) (max_seq_length : Nat)
    (doc_stride : Int) (max_query_length : Nat) (is_training : Bool)
    (ex : SquadExample) (fuel : Nat) : Option (List Feature) :=
  match docSpansLoopI ((allDocTokens tokenizer ex.doc_tokens).length : Int)
      (maxTokensForDoc max_seq_length (queryTokensOf tokenizer max_query_length ex).length)
      doc_stride 0 fuel with
  | none => none
  | some doc_spans =>
      some (doc_spans.enum.map (fun pr =>
        buildFeature tokenizer max_seq_length is_training
          (queryTokensOf tokenizer max_query_length ex)
          (allDocTokens tokenizer ex.doc_tokens)
          (tokToOrigIndex tokenizer ex.doc_tokens) doc_spans
          (tokPositionsOf is_training tokenizer ex).1
          (tokPositionsOf is_training tokenizer ex).2
          ex.is_impossible pr.1 pr.2))

/-- The document spans the converter generates for an example (the
`doc_spans` list of lines 191-200), or `[]` when the loop does not
finish within `fuel` iterations. -/
def exDocSpans (tokenizer : Tokenizer) (max_seq_length : Nat) (doc_stride : Int)
    (max_query_length : Nat) (ex : SquadExample) (fuel : Nat) : List DocSpan :=
  (docSpansLoopI ((allDocTokens tokenizer ex.doc_tokens).length : Int)
    (maxTokensForDoc max_seq_length (queryTokensOf tokenizer max_query_length ex).length)
    doc_stride 0 fuel).getD []

/-- Lines 145-302, `convert_examples_to_features` over a whole example
list: the concatenation of each example's features, in order. -/
def convert_examples_to_features (examples : List SquadExample) (tokenizer : Tokenizer)
    (max_seq_length : Nat) (doc_stride : Int) (max_query_length : Nat)
    (is_training : Bool) (fuel : Nat) : Option (List Feature) :=
  match examples with
  | [] => some []
  | ex :: rest => do
    let fs ← convertExampleFeatures tokenizer max_seq_length doc_stride
      max_query_length is_training ex fuel
    let others ← convert_examples_to_features rest tokenizer max_seq_length doc_stride
      max_query_length is_training fuel
    pure (fs ++ others)

/-- Lines 315-318 of `read_squad_examples`: the recognized whitespace
characters (space, tab, CR, LF, and the narrow no-break space 0x202F). -/
def is_whitespace (c : Char) : Bool :=
  (c == ' ') || (c == '\t') || (c == '\r') || (c == '\n') || (c.toNat == 0x202F)

/-- Lines 324-336, the character scan that builds `doc_tokens` and
`char_to_word_offset`.  Both accumulators are kept reversed; the head of
`revToks` is the word token currently being extended.  Every character
appends `len(doc_tokens) - 1` (so `-1` before the first token) to the
offset map. -/
def readContextLoop : List Char → List String → Bool → List Int → List String × List Int
  | [], revToks, _, revOffs => (revToks.reverse, revOffs.reverse)
  | c :: cs, revToks, prev_is_whitespace, revOffs =>
    if is_whitespace c then
      readContextLoop cs revToks true (((revToks.length : Int) - 1) :: revOffs)
    else
      let revToks' :=
        if prev_is_whitespace then c.toString :: revToks
        else
          match revToks with
          | [] => [c.toString]
          | t :: rest => (t ++ c.toString) :: rest
      readContextLoop cs revToks' false (((revToks'.length : Int) - 1) :: revOffs)

/-- Lines 323-336: split a paragraph context into whitespace-delimited
word tokens together with the character-to-word-token offset map. -/
def readContext (context : String) : List String × List Int :=
  readContextLoop context.data [] true []

/-- Helper for `whitespace_tokenize`: scan the characters, breaking at
whitespace runs; `revToks` holds the finished words reversed, `cur` the
word being read. -/
def wsTokLoop : List Char → List String → String → List String
  | [], revToks, cur =>
      (if cur = "" then revToks else cur :: revToks).reverse
  | c :: cs, revToks, cur =>
      if c.isWhitespace then
        wsTokLoop cs (if cur = "" then revToks else cur :: revToks) ""
      else wsTokLoop cs revToks (cur.push c)

/-- The external `whitespace_tokenize` of the tokenization module:
Python `text.strip().split()`, splitting on runs of whitespace with no
empty words. -/
def whitespace_tokenize (text : String) : List String :=
  wsTokLoop text.data [] ""

/-- Python `hay.find(needle) != -1`: `needle` occurs contiguously in
`hay`. -/
def hasSubstring (hay needle : String) : Bool :=
  (List.range (hay.data.length + 1)).any
    (fun i => ((hay.data.drop i).take needle.data.length) == needle.data)

/-- One record of the `"answers"` array of the SQuAD input. -/
structure Answer where
  text : String
  answer_start : Nat
deriving DecidableEq

instance : Inhabited Answer := ⟨⟨"", 0⟩⟩

/-- One record of the `"qas"` array of the SQuAD input. -/
structure QA where
  qas_id : String
  question : String
  answers : List Answer
  is_impossible : Bool
deriving DecidableEq

/-- One record of the `"paragraphs"` array of the SQuAD input. -/
structure Paragraph where
  context : String
  qas : List QA
deriving DecidableEq

/-- One record of the `"data"` array of the SQuAD input. -/
structure Entry where
  paragraphs : List Paragraph
deriving DecidableEq

/-- Line 355: `start_position = char_to_word_offset[answer_offset]`. -/
def qaAnswerStart (offsets : List Int) (qa : QA) : Int :=
  offsets.getD (qa.answers.getD 0 default).answer_start (-1)

/-- Lines 356-357: `end_position = char_to_word_offset[answer_offset +
answer_length - 1]`. -/
def qaAnswerEnd (offsets : List Int) (qa : QA) : Int :=
  let answer := qa.answers.getD 0 default
  offsets.getD (answer.answer_start + answer.text.length - 1) (-1)

/-- Lines 364-365: `actual_text`, the whitespace-joined word-token slice
of the answer. -/
def qaActualText (doc_tokens : List String) (offsets : List Int) (qa : QA) : String :=
  joinTokens (pySlice doc_tokens (qaAnswerStart offsets qa) (qaAnswerEnd offsets qa + 1))

/-- Lines 366-367: `cleaned_answer_text`. -/
def qaCleanedText (qa : QA) : String :=
  joinTokens (whitespace_tokenize (qa.answers.getD 0 default).text)

/-- Lines 338-385, the per-question body of `read_squad_examples`:
`.error` models the `ValueError` of lines 347-349, `.ok none` the
`continue` of line 371 (answer text not recoverable, example skipped),
and `.ok (some _)` an appended example. -/
def processQA (doc_tokens : List String) (offsets : List Int) (is_training : Bool)
    (qa : QA) : Except String (Option SquadExample) :=
  if is_training then
    if qa.answers.length ≠ 1 ∧ qa.is_impossible = false then
      .error "For training, each question should have exactly 1 answer."
    else if qa.is_impossible = false then
      let answer := qa.answers.getD 0 default
      let sp := qaAnswerStart offsets qa
      let ep := qaAnswerEnd offsets qa
      if hasSubstring (qaActualText doc_tokens offsets qa) (qaCleanedText qa) = false then
        .ok none
      else
        .ok (some ⟨qa.qas_id, qa.question, doc_tokens, some answer.text,
          some sp, some ep, false⟩)
    else
      .ok (some ⟨qa.qas_id, qa.question, doc_tokens, some "", some (-1), some (-1), true⟩)
  else
    .ok (some ⟨qa.qas_id, qa.question, doc_tokens, none, none, none, false⟩)

/-- The loop over `paragraph["qas"]` (lines 338-385): examples of the
questions of one paragraph, in order, with skipped questions absent; an
error aborts the whole run, as the uncaught `ValueError` does. -/
def readQAs (doc_tokens : List String) (offsets : List Int) (is_training : Bool) :
    List QA → Except String (List SquadExample)
  | [] => .ok []
  | qa :: rest => do
    let o ← processQA doc_tokens offsets is_training qa
    let others ← readQAs doc_tokens offsets is_training rest
    match o with
    | none => pure others
    | some e => pure (e :: others)

/-- The per-paragraph body of `read_squad_examples` (lines 322-385). -/
def readParagraph (is_training : Bool) (p : Paragraph) : Except String (List SquadExample) :=
  let dtOffs := readContext p.context
  readQAs dtOffs.1 dtOffs.2 is_training p.qas

/-- The loop over paragraphs (lines 321-385): examples of each
paragraph in order, with the uncaught `ValueError` aborting the run. -/
def readParagraphs (is_training : Bool) : List Paragraph → Except String (List SquadExample)
  | [] => .ok []
  | p :: rest => do
    let xs ← readParagraph is_training p
    let others ← readParagraphs is_training rest
    pure (xs ++ others)

/-- Lines 305-386, `read_squad_examples` on already-parsed JSON: all
paragraph example lists of all entries, concatenated in input order. -/
def read_squad_examples (input_data : List Entry) (is_training : Bool) :
    Except String (List SquadExample) :=
  readParagraphs is_training (input_data.flatMap (fun e => e.paragraphs))

/-- Lines 389-453, `process_set`.  After computing `features`, the
materializer loop is written `for feature in train_features:` but no
name `train_features` is ever bound (the local is `features` and the
module has no such global); `context_char_idxs` is appended to without
ever being bound; and line 443 appends `ques_char_idxs` to itself
instead of the per-feature row `ques_char_idx`.  The first of these
raises `NameError` before any feature is processed, for every input, so
the function is modelled as that immediate error. -/
def process_set (features : List Feature) : Except String Unit :=
  match features with
  | _ => .error "NameError: name 'train_features' is not defined"

/-- A concrete identity tokenizer for witnesses: every word is its own
single sub-word token with vocabulary id 1. -/
def tkId : Tokenizer :=
  ⟨fun s => [s], fun _ => 1⟩

/-- A concrete training example for witnesses: a four-word document with
answer `"b"` at word 1. -/
def exW : SquadExample :=
  ⟨"w1", "q", ["a", "b", "c", "d"], some "b", some 1, some 1, false⟩

/-- A concrete input whose (only) training question has two answers while
not being marked impossible. -/
def dataBad : List Entry :=
  [⟨[⟨"a b", [⟨"q1", "x", [⟨"a", 0⟩, ⟨"b", 2⟩], false⟩]⟩]⟩]

/-- A concrete input whose questions all have exactly one answer. -/
def dataGood : List Entry :=
  [⟨[⟨"a b", [⟨"q1", "x", [⟨"a", 0⟩], false⟩]⟩]⟩]

/-- Concrete word tokens for the skip witness. -/
def dtW : List String :=
  ["hello", "world"]

/-- Concrete character-to-word offsets for `dtW` (`"hello world"`). -/
def offsW : List Int :=
  [0, 0, 0, 0, 0, 0, 1, 1, 1, 1, 1]

/-- A concrete training question whose answer text `"xyz"` cannot be
recovered from the document. -/
def qaSkip : QA :=
  ⟨"qs", "?", [⟨"xyz", 0⟩], false⟩

/-- A concrete training question whose answer `"hello"` is recoverable. -/
def qaKeep : QA :=
  ⟨"qk", "?", [⟨"hello", 0⟩], false⟩

/-- Running the best-span loop from a non-`None` state gives the same
result as running it from `None` and then comparing with the initial
state (the loop only replaces the running best on a strictly greater
score). -/
theorem bestSpanLoop_some_init (p : Int) :
    ∀ (l : List DocSpan) (idx : Nat) (b : Int) (i : Nat),
      bestSpanLoop p l idx (some (b, i)) =
        match bestSpanLoop p l idx none with
        | none => some (b, i)
        | some (b2, i2) => if b < b2 then some (b2, i2) else some (b, i) := by
  intro l
  induction l with
  | nil => intro idx b i; rfl
  | cons sp rest ih =>
    intro idx b i
    by_cases hc : containsTok sp p
    · have hstep : bestSpanStep p (some (b, i)) idx sp
          = if b < spanScore sp p then some (spanScore sp p, idx) else some (b, i) := by
        simp [bestSpanStep, hc]
      have hstep0 : bestSpanStep p none idx sp = some (spanScore sp p, idx) := by
        simp [bestSpanStep, hc]
      have hcons : bestSpanLoop p (sp :: rest) idx none
          = bestSpanLoop p rest (idx + 1) (some (spanScore sp p, idx)) := by
        simp [bestSpanLoop, hstep0]
      show bestSpanLoop p rest (idx + 1) (bestSpanStep p (some (b, i)) idx sp) = _
      rw [hstep, hcons]
      by_cases hb : b < spanScore sp p
      · rw [if_pos hb, ih (idx + 1) (spanScore sp p) idx]
        cases bestSpanLoop p rest (idx + 1) none with
        | none => simp [hb]
        | some x =>
          obtain ⟨b2, i2⟩ := x
          by_cases h2 : spanScore sp p < b2
          · simp [h2, lt_trans hb h2]
          · simp [h2, hb]
      · rw [if_neg hb, ih (idx + 1) b i, ih (idx + 1) (spanScore sp p) idx]
        cases bestSpanLoop p rest (idx + 1) none with
        | none => simp [hb]
        | some x =>
          obtain ⟨b2, i2⟩ := x
          by_cases h2 : spanScore sp p < b2
          · simp [h2]
          · have hb2 : ¬ b < b2 := by omega
            simp [h2, hb2, hb]
    · have hstep : bestSpanStep p (some (b, i)) idx sp = some (b, i) := by
        simp [bestSpanStep, hc]
      have hstep0 : bestSpanStep p none idx sp = none := by
        simp [bestSpanStep, hc]
      have hcons : bestSpanLoop p (sp :: rest) idx none
          = bestSpanLoop p rest (idx + 1) none := by
        simp [bestSpanLoop, hstep0]
      show bestSpanLoop p rest (idx + 1) (bestSpanStep p (some (b, i)) idx sp) = _
      rw [hstep, hcons]
      exact ih (idx + 1) b i

/-- Characterization of the best-span loop started from `None`: it
returns `None` exactly when no span contains the position, and otherwise
the score and index of the first span achieving the maximum score among
the containing spans. -/
theorem bestSpanLoop_none_char (p : Int) :
    ∀ (l : List DocSpan) (idx : Nat),
      (bestSpanLoop p l idx none = none →
        ∀ k (hk : k < l.length), containsTok (l.get ⟨k, hk⟩) p = false) ∧
      (∀ b i, bestSpanLoop p l idx none = some (b, i) →
        ∃ k, ∃ hk : k < l.length, i = idx + k ∧
          containsTok (l.get ⟨k, hk⟩) p = true ∧ spanScore (l.get ⟨k, hk⟩) p = b ∧
          (∀ j (hj : j < l.length), containsTok (l.get ⟨j, hj⟩) p = true →
            spanScore (l.get ⟨j, hj⟩) p ≤ b) ∧
          (∀ j (hj : j < l.length), j < k → containsTok (l.get ⟨j, hj⟩) p = true →
            spanScore (l.get ⟨j, hj⟩) p < b)) := by
  intro l
  induction l with
  | nil =>
    intro idx
    refine ⟨fun _ k hk => absurd hk (Nat.not_lt_zero k), fun b i h => ?_⟩
    exact absurd h (by simp [bestSpanLoop])
  | cons sp rest ih =>
    intro idx
    by_cases hc : containsTok sp p
    · have hstep0 : bestSpanStep p none idx sp = some (spanScore sp p, idx) := by
        simp [bestSpanStep, hc]
      have hcons : bestSpanLoop p (sp :: rest) idx none
          = bestSpanLoop p rest (idx + 1) (some (spanScore sp p, idx)) := by
        simp [bestSpanLoop, hstep0]
      constructor
      · intro hnone
        exfalso
        rw [hcons, bestSpanLoop_some_init] at hnone
        cases hR : bestSpanLoop p rest (idx + 1) none with
        | none => rw [hR] at hnone; simp at hnone
        | some x =>
          obtain ⟨b2, i2⟩ := x
          rw [hR] at hnone
          by_cases h2 : spanScore sp p < b2 <;> simp [h2] at hnone
      · intro b i hsome
        rw [hcons, bestSpanLoop_some_init] at hsome
        cases hR : bestSpanLoop p rest (idx + 1) none with
        | none =>
          rw [hR] at hsome
          have hsome' : some (spanScore sp p, idx) = some (b, i) := hsome
          simp only [Option.some.injEq, Prod.mk.injEq] at hsome'
          obtain ⟨hbe, hie⟩ := hsome'
          refine ⟨0, by simp, by omega, hc, hbe, ?_, ?_⟩
          · intro j hj hcj
            match j with
            | 0 => exact le_of_eq hbe
            | j' + 1 =>
              exfalso
              have := (ih (idx + 1)).1 hR j' (by simpa using hj)
              rw [show (sp :: rest).get ⟨j' + 1, hj⟩ = rest.get ⟨j', by simpa using hj⟩
                from rfl] at hcj
              rw [this] at hcj
              exact Bool.false_ne_true hcj
          · intro j hj hjk
            omega
        | some x =>
          obtain ⟨b2, i2⟩ := x
          rw [hR] at hsome
          have hsome' : (if spanScore sp p < b2 then some (b2, i2)
              else some (spanScore sp p, idx)) = some (b, i) := hsome
          obtain ⟨k2, hk2, hi2, hc2, hs2, hmax2, hfirst2⟩ := (ih (idx + 1)).2 b2 i2 hR
          by_cases h2 : spanScore sp p < b2
          · rw [if_pos h2] at hsome'
            simp only [Option.some.injEq, Prod.mk.injEq] at hsome'
            obtain ⟨hbe, hie⟩ := hsome'
            refine ⟨k2 + 1, by simpa using hk2, by omega, ?_, ?_, ?_, ?_⟩
            · show containsTok (rest.get ⟨k2, hk2⟩) p = true
              exact hc2
            · show spanScore (rest.get ⟨k2, hk2⟩) p = b
              omega
            · intro j hj hcj
              match j with
              | 0 =>
                have h0 : spanScore ((sp :: rest).get ⟨0, hj⟩) p = spanScore sp p := rfl
                omega
              | j' + 1 =>
                have hj' : j' < rest.length := by simpa using hj
                have hm : spanScore ((sp :: rest).get ⟨j' + 1, hj⟩) p ≤ b2 :=
                  hmax2 j' hj' hcj
                omega
            · intro j hj hjk hcj
              match j with
              | 0 =>
                have h0 : spanScore ((sp :: rest).get ⟨0, hj⟩) p = spanScore sp p := rfl
                omega
              | j' + 1 =>
                have hj' : j' < rest.length := by simpa using hj
                have hf : spanScore ((sp :: rest).get ⟨j' + 1, hj⟩) p < b2 :=
                  hfirst2 j' hj' (by omega) hcj
                omega
          · rw [if_neg h2] at hsome'
            simp only [Option.some.injEq, Prod.mk.injEq] at hsome'
            obtain ⟨hbe, hie⟩ := hsome'
            refine ⟨0, by simp, by omega, hc, hbe, ?_, ?_⟩
            · intro j hj hcj
              match j with
              | 0 => exact le_of_eq hbe
              | j' + 1 =>
                have hj' : j' < rest.length := by simpa using hj
                have hm : spanScore ((sp :: rest).get ⟨j' + 1, hj⟩) p ≤ b2 :=
                  hmax2 j' hj' hcj
                omega
            · intro j hj hjk
              omega
    · have hstep0 : bestSpanStep p none idx sp = none := by
        simp [bestSpanStep, hc]
      have hcons : bestSpanLoop p (sp :: rest) idx none
          = bestSpanLoop p rest (idx + 1) none := by
        simp [bestSpanLoop, hstep0]
      constructor
      · intro hnone k hk
        rw [hcons] at hnone
        match k with
        | 0 => simpa using hc
        | k' + 1 => exact (ih (idx + 1)).1 hnone k' (by simpa using hk)
      · intro b i hsome
        rw [hcons] at hsome
        obtain ⟨k2, hk2, hi2, hc2, hs2, hmax2, hfirst2⟩ := (ih (idx + 1)).2 b i hsome
        refine ⟨k2 + 1, by simpa using hk2, by omega, hc2, hs2, ?_, ?_⟩
        · intro j hj hcj
          match j with
          | 0 => exact absurd hcj (by simpa using hc)
          | j' + 1 => exact hmax2 j' (by simpa using hj) hcj
        · intro j hj hjk hcj
          match j with
          | 0 => exact absurd hcj (by simpa using hc)
          | j' + 1 => exact hfirst2 j' (by simpa using hj) (by omega) hcj

/-- Whenever at least one span contains the position, `_check_is_max_context`
answers true for exactly one span index, and that index is a containing
span. -/
theorem check_is_max_context_exists_unique (doc_spans : List DocSpan) (p : Int)
    (hcov : ∃ j : Fin doc_spans.length, containsTok (doc_spans.get j) p = true) :
    ∃ j : Fin doc_spans.length, containsTok (doc_spans.get j) p = true ∧
      _check_is_max_context doc_spans j.1 p = true ∧
      ∀ i : Nat, _check_is_max_context doc_spans i p = true → i = j.1 := by
  cases hL : bestSpanLoop p doc_spans 0 none with
  | none =>
    exfalso
    obtain ⟨j, hj⟩ := hcov
    have hfalse := (bestSpanLoop_none_char p doc_spans 0).1 hL j.1 j.2
    have hj' : containsTok (doc_spans.get ⟨j.1, j.2⟩) p = true := hj
    rw [hfalse] at hj'
    exact Bool.false_ne_true hj'
  | some x =>
    obtain ⟨b, i⟩ := x
    obtain ⟨k, hk, hik, hck, hsk, hmax, hfirst⟩ :=
      (bestSpanLoop_none_char p doc_spans 0).2 b i hL
    have hik' : i = k := by omega
    refine ⟨⟨k, hk⟩, hck, ?_, ?_⟩
    · unfold _check_is_max_context
      rw [hL]
      simp [hik']
    · intro i' hi'
      unfold _check_is_max_context at hi'
      rw [hL] at hi'
      simp at hi'
      show i' = k
      omega

/-- Claim C2, counterexample: with the spans `[start 0 len 5, start 2 len 5]`
and position 3, both spans contain the position and both score
`min(left, right) + 0.01 * 5 = 1.05`, so span 1 achieves the maximum,
yet `_check_is_max_context` returns false for it (the loop keeps the
first maximum because it only replaces on a strictly greater score).
The claimed equivalence therefore fails at this input. -/
theorem c2_counterexample :
    ¬ (_check_is_max_context [⟨0, 5⟩, ⟨2, 5⟩] 1 3 = true ↔
        AchievesMax [⟨0, 5⟩, ⟨2, 5⟩] 1 3) := by
  decide

/-- Claim C2 (amended): `_check_is_max_context doc_spans cur_span_index
position` returns true iff `cur_span_index` is the first (least) index of
a span that contains `position` and achieves the maximum of the score
`min(left_context, right_context) + 0.01 * span.length` among all spans
in `doc_spans` containing `position`; spans of greater index that tie
the maximum get false. -/
theorem c2_check_is_max_context_first_argmax (doc_spans : List DocSpan)
    (cur_span_index : Nat) (p : Int) :
    _check_is_max_context doc_spans cur_span_index p = true ↔
      (AchievesMax doc_spans cur_span_index p ∧
        ∀ k, k < cur_span_index → ¬ AchievesMax doc_spans k p) := by
  cases hL : bestSpanLoop p doc_spans 0 none with
  | none =>
    have hall := (bestSpanLoop_none_char p doc_spans 0).1 hL
    constructor
    · intro h
      exfalso
      unfold _check_is_max_context at h
      rw [hL] at h
      exact Bool.false_ne_true h
    · rintro ⟨⟨hlen, hcd, _⟩, _⟩
      exfalso
      rw [List.getD_eq_get doc_spans default hlen] at hcd
      rw [hall cur_span_index hlen] at hcd
      exact Bool.false_ne_true hcd
  | some x =>
    obtain ⟨b, i⟩ := x
    obtain ⟨k, hk, hik, hck, hsk, hmax, hfirst⟩ :=
      (bestSpanLoop_none_char p doc_spans 0).2 b i hL
    have hik' : i = k := by omega
    have hachk : AchievesMax doc_spans k p := by
      refine ⟨hk, ?_, ?_⟩
      · rw [List.getD_eq_get doc_spans default hk]
        exact hck
      · intro j hcj
        rw [List.getD_eq_get doc_spans default hk, hsk]
        exact hmax j.1 j.2 hcj
    constructor
    · intro h
      unfold _check_is_max_context at h
      rw [hL] at h
      simp at h
      have hcurk : cur_span_index = k := by omega
      refine ⟨by rw [hcurk]; exact hachk, ?_⟩
      intro k' hk'lt hach'
      obtain ⟨hk'len, hcd', hmax'⟩ := hach'
      rw [List.getD_eq_get doc_spans default hk'len] at hcd' hmax'
      have h1 : spanScore (doc_spans.get ⟨k', hk'len⟩) p < b :=
        hfirst k' hk'len (by omega) hcd'
      have h2 : b ≤ spanScore (doc_spans.get ⟨k', hk'len⟩) p := by
        rw [← hsk]
        exact hmax' ⟨k, hk⟩ hck
      omega
    · rintro ⟨⟨hlen, hcd, hmax'⟩, hmin⟩
      rw [List.getD_eq_get doc_spans default hlen] at hcd hmax'
      have hle : spanScore (doc_spans.get ⟨cur_span_index, hlen⟩) p ≤ b :=
        hmax cur_span_index hlen hcd
      have hge : b ≤ spanScore (doc_spans.get ⟨cur_span_index, hlen⟩) p := by
        rw [← hsk]
        exact hmax' ⟨k, hk⟩ hck
      have heq : spanScore (doc_spans.get ⟨cur_span_index, hlen⟩) p = b := by omega
      have hcurk : cur_span_index = k := by
        rcases lt_trichotomy cur_span_index k with hlt | he | hgt
        · exfalso
          have := hfirst cur_span_index hlen hlt hcd
          omega
        · exact he
        · exact absurd hachk (hmin k hgt)
      subst hcurk
      unfold _check_is_max_context
      rw [hL]
      simp [hik']

/-- When `max_tokens_for_doc ≤ 0` and the document is not yet exhausted,
the sliding-window loop never finishes: each iteration keeps the start
offset at or below its current value, so no amount of fuel suffices. -/
theorem docSpansLoopI_div (n mtd stride : Int) :
    ∀ (fuel : Nat) (s : Int), s < n → mtd ≤ 0 →
      docSpansLoopI n mtd stride s fuel = none := by
  intro fuel
  induction fuel with
  | zero => intro s _ _; rfl
  | succ fuel ih =>
    intro s hs hm
    have hlen : spanLengthAt n mtd s = mtd := by
      unfold spanLengthAt
      rw [if_pos (by omega : n - s > mtd)]
    have hmin : min (spanLengthAt n mtd s) stride ≤ mtd := by
      rw [hlen]; exact min_le_left _ _
    simp only [docSpansLoopI, if_pos hs, hlen]
    rw [if_neg (by omega : ¬ s + mtd = n)]
    rw [ih (s + min mtd stride) (by have := min_le_left mtd stride; omega) hm]

/-- Every span emitted by a finishing run of the sliding-window loop has
positive length, length at most `max_tokens_for_doc`, and ends within the
document. -/
theorem docSpansLoopI_bounds (n mtd stride : Int) :
    ∀ (fuel : Nat) (s : Int) (spans : List DocSpan),
      docSpansLoopI n mtd stride s fuel = some spans →
      ∀ sp ∈ spans, 1 ≤ sp.length ∧ sp.length ≤ mtd ∧ sp.start + sp.length ≤ n := by
  intro fuel
  induction fuel with
  | zero => intro s spans h; exact absurd h (by simp [docSpansLoopI])
  | succ fuel ih =>
    intro s spans h
    by_cases hs : s < n
    · simp only [docSpansLoopI, if_pos hs] at h
      have hboth : spanLengthAt n mtd s ≤ mtd ∧ spanLengthAt n mtd s ≤ n - s := by
        unfold spanLengthAt
        by_cases hgt : n - s > mtd
        · rw [if_pos hgt]; omega
        · rw [if_neg hgt]; omega
      by_cases hbr : s + spanLengthAt n mtd s = n
      · rw [if_pos hbr] at h
        have hspans : spans = [⟨s, spanLengthAt n mtd s⟩] := (Option.some.inj h).symm
        subst hspans
        intro sp hsp
        rw [List.mem_singleton] at hsp
        subst hsp
        refine ⟨?_, ?_, ?_⟩
        · show (1 : Int) ≤ spanLengthAt n mtd s
          omega
        · show spanLengthAt n mtd s ≤ mtd
          exact hboth.1
        · show s + spanLengthAt n mtd s ≤ n
          omega
      · rw [if_neg hbr] at h
        cases hrec : docSpansLoopI n mtd stride (s + min (spanLengthAt n mtd s) stride) fuel with
        | none => rw [hrec] at h; exact absurd h (by simp)
        | some rest =>
          rw [hrec] at h
          have hspans : spans = ⟨s, spanLengthAt n mtd s⟩ :: rest := (Option.some.inj h).symm
          subst hspans
          have hpos : 1 ≤ spanLengthAt n mtd s := by
            by_cases hgt : n - s > mtd
            · have hlen : spanLengthAt n mtd s = mtd := by
                unfold spanLengthAt; rw [if_pos hgt]
              rw [hlen]
              by_contra hnot
              have hm : mtd ≤ 0 := by omega
              have hs' : s + min (spanLengthAt n mtd s) stride < n := by
                have h2 := min_le_left (spanLengthAt n mtd s) stride
                omega
              rw [docSpansLoopI_div n mtd stride fuel _ hs' hm] at hrec
              exact absurd hrec (by simp)
            · exfalso
              apply hbr
              unfold spanLengthAt
              rw [if_neg hgt]
              ring
          intro sp hsp
          rcases List.mem_cons.mp hsp with hhd | htl
          · subst hhd
            refine ⟨hpos, hboth.1, ?_⟩
            show s + spanLengthAt n mtd s ≤ n
            have := hboth.2
            omega
          · exact ih _ rest hrec sp htl
    · simp only [docSpansLoopI, if_neg hs] at h
      have hspans : spans = [] := (Option.some.inj h).symm
      subst hspans
      intro sp hsp
      exact absurd hsp (List.not_mem_nil sp)

/-- In a non-final iteration of the sliding-window loop (no break), the
emitted length is exactly `max_tokens_for_doc`. -/
theorem spanLengthAt_eq_mtd_of_nobreak (n mtd s : Int)
    (hbr : ¬ s + spanLengthAt n mtd s = n) : spanLengthAt n mtd s = mtd := by
  by_cases hgt : n - s > mtd
  · unfold spanLengthAt
    rw [if_pos hgt]
  · exfalso
    apply hbr
    unfold spanLengthAt
    rw [if_neg hgt]
    ring

/-- If a non-final iteration's recursive call finished, then
`max_tokens_for_doc` is positive (otherwise the loop would never finish). -/
theorem mtd_pos_of_rec (n mtd stride : Int) (fuel : Nat) (s : Int) (rest : List DocSpan)
    (hs : s < n) (hbr : ¬ s + spanLengthAt n mtd s = n)
    (hrec : docSpansLoopI n mtd stride (s + min (spanLengthAt n mtd s) stride) fuel
      = some rest) :
    1 ≤ mtd := by
  have hlen := spanLengthAt_eq_mtd_of_nobreak n mtd s hbr
  by_contra hnot
  have hm : mtd ≤ 0 := by omega
  have hs' : s + min (spanLengthAt n mtd s) stride < n := by
    have h2 := min_le_left (spanLengthAt n mtd s) stride
    omega
  rw [docSpansLoopI_div n mtd stride fuel _ hs' hm] at hrec
  exact absurd hrec (by simp)

/-- The head of a finishing run started strictly inside the document is
the span at the current offset. -/
theorem docSpansLoopI_head (n mtd stride : Int) (fuel : Nat) (s : Int)
    (spans : List DocSpan) (h : docSpansLoopI n mtd stride s fuel = some spans)
    (hs : s < n) :
    ∃ tl, spans = ⟨s, spanLengthAt n mtd s⟩ :: tl := by
  cases fuel with
  | zero => exact absurd h (by simp [docSpansLoopI])
  | succ fuel =>
    simp only [docSpansLoopI, if_pos hs] at h
    by_cases hbr : s + spanLengthAt n mtd s = n
    · rw [if_pos hbr] at h
      exact ⟨[], (Option.some.inj h).symm⟩
    · rw [if_neg hbr] at h
      cases hrec : docSpansLoopI n mtd stride (s + min (spanLengthAt n mtd s) stride) fuel with
      | none => rw [hrec] at h; exact absurd h (by simp)
      | some rest =>
        rw [hrec] at h
        exact ⟨rest, (Option.some.inj h).symm⟩

/-- With a positive stride, every span of a finishing run starts at or
after the offset the run started from. -/
theorem docSpansLoopI_start_mono (n mtd stride : Int) (hstr : 1 ≤ stride) :
    ∀ (fuel : Nat) (s : Int) (spans : List DocSpan),
      docSpansLoopI n mtd stride s fuel = some spans →
      ∀ sp ∈ spans, s ≤ sp.start := by
  intro fuel
  induction fuel with
  | zero => intro s spans h; exact absurd h (by simp [docSpansLoopI])
  | succ fuel ih =>
    intro s spans h
    by_cases hs : s < n
    · simp only [docSpansLoopI, if_pos hs] at h
      by_cases hbr : s + spanLengthAt n mtd s = n
      · rw [if_pos hbr] at h
        have hspans : spans = [⟨s, spanLengthAt n mtd s⟩] := (Option.some.inj h).symm
        subst hspans
        intro sp hsp
        rw [List.mem_singleton] at hsp
        subst hsp
        exact le_refl s
      · rw [if_neg hbr] at h
        cases hrec : docSpansLoopI n mtd stride (s + min (spanLengthAt n mtd s) stride) fuel with
        | none => rw [hrec] at h; exact absurd h (by simp)
        | some rest =>
          rw [hrec] at h
          have hspans : spans = ⟨s, spanLengthAt n mtd s⟩ :: rest := (Option.some.inj h).symm
          subst hspans
          have hmtd := mtd_pos_of_rec n mtd stride fuel s rest hs hbr hrec
          have hlen := spanLengthAt_eq_mtd_of_nobreak n mtd s hbr
          have hmin : 1 ≤ min (spanLengthAt n mtd s) stride := le_min (by omega) hstr
          intro sp hsp
          rcases List.mem_cons.mp hsp with hhd | htl
          · subst hhd
            exact le_refl s
          · have := ih _ rest hrec sp htl
            omega
    · simp only [docSpansLoopI, if_neg hs] at h
      have hspans : spans = [] := (Option.some.inj h).symm
      subst hspans
      intro sp hsp
      exact absurd hsp (List.not_mem_nil sp)

/-- Every position between the run's start offset and the end of the
document is contained in some emitted span. -/
theorem docSpansLoopI_cover (n mtd stride : Int) :
    ∀ (fuel : Nat) (s : Int) (spans : List DocSpan),
      docSpansLoopI n mtd stride s fuel = some spans →
      ∀ p : Int, s ≤ p → p < n → ∃ sp ∈ spans, containsTok sp p = true := by
  intro fuel
  induction fuel with
  | zero => intro s spans h; exact absurd h (by simp [docSpansLoopI])
  | succ fuel ih =>
    intro s spans h p hsp hpn
    have hs : s < n := by omega
    simp only [docSpansLoopI, if_pos hs] at h
    by_cases hbr : s + spanLengthAt n mtd s = n
    · rw [if_pos hbr] at h
      have hspans : spans = [⟨s, spanLengthAt n mtd s⟩] := (Option.some.inj h).symm
      subst hspans
      refine ⟨⟨s, spanLengthAt n mtd s⟩, List.mem_singleton_self _, ?_⟩
      simp only [containsTok, Bool.and_eq_true, decide_eq_true_eq]
      constructor
      · exact hsp
      · show p ≤ s + spanLengthAt n mtd s - 1
        omega
    · rw [if_neg hbr] at h
      cases hrec : docSpansLoopI n mtd stride (s + min (spanLengthAt n mtd s) stride) fuel with
      | none => rw [hrec] at h; exact absurd h (by simp)
      | some rest =>
        rw [hrec] at h
        have hspans : spans = ⟨s, spanLengthAt n mtd s⟩ :: rest := (Option.some.inj h).symm
        subst hspans
        by_cases hp : p < s + spanLengthAt n mtd s
        · refine ⟨⟨s, spanLengthAt n mtd s⟩, List.mem_cons_self _ _, ?_⟩
          simp only [containsTok, Bool.and_eq_true, decide_eq_true_eq]
          constructor
          · exact hsp
          · show p ≤ s + spanLengthAt n mtd s - 1
            omega
        · have hmin := min_le_left (spanLengthAt n mtd s) stride
          obtain ⟨sp, hmem, hcont⟩ := ih _ rest hrec p (by omega) hpn
          exact ⟨sp, List.mem_cons_of_mem _ hmem, hcont⟩

/-- When `1 ≤ doc_stride ≤ max_tokens_for_doc`, any two consecutive
emitted spans overlap in at most `max_tokens_for_doc - doc_stride`
positions. -/
theorem docSpansLoopI_chain_overlap (n mtd stride : Int) (hms : stride ≤ mtd) :
    ∀ (fuel : Nat) (s : Int) (spans : List DocSpan),
      docSpansLoopI n mtd stride s fuel = some spans →
      List.Chain' (fun a b => overlapLen a b ≤ mtd - stride) spans := by
  intro fuel
  induction fuel with
  | zero => intro s spans h; exact absurd h (by simp [docSpansLoopI])
  | succ fuel ih =>
    intro s spans h
    by_cases hs : s < n
    · simp only [docSpansLoopI, if_pos hs] at h
      by_cases hbr : s + spanLengthAt n mtd s = n
      · rw [if_pos hbr] at h
        have hspans : spans = [⟨s, spanLengthAt n mtd s⟩] := (Option.some.inj h).symm
        subst hspans
        exact List.chain'_singleton _
      · rw [if_neg hbr] at h
        cases hrec : docSpansLoopI n mtd stride (s + min (spanLengthAt n mtd s) stride) fuel with
        | none => rw [hrec] at h; exact absurd h (by simp)
        | some rest =>
          rw [hrec] at h
          have hspans : spans = ⟨s, spanLengthAt n mtd s⟩ :: rest := (Option.some.inj h).symm
          subst hspans
          have hchain := ih _ rest hrec
          cases rest with
          | nil => exact List.chain'_singleton _
          | cons hd2 tl =>
            have hlen := spanLengthAt_eq_mtd_of_nobreak n mtd s hbr
            have hminr : min (spanLengthAt n mtd s) stride = stride := by
              rw [hlen]
              exact min_eq_right hms
            have hs' : s + min (spanLengthAt n mtd s) stride < n := by
              have hgt : mtd < n - s := by
                by_contra hng
                apply hbr
                unfold spanLengthAt
                rw [if_neg (by omega)]
                ring
              omega
            obtain ⟨tl', htl'⟩ := docSpansLoopI_head n mtd stride fuel _ _ hrec hs'
            have hhd2 : hd2 = ⟨s + min (spanLengthAt n mtd s) stride,
                spanLengthAt n mtd (s + min (spanLengthAt n mtd s) stride)⟩ := by
              injection htl' with h1 _
            rw [List.chain'_cons]
            constructor
            · rw [hhd2]
              unfold overlapLen
              apply max_le
              · omega
              · have h1 : min (s + spanLengthAt n mtd s)
                    ((s + min (spanLengthAt n mtd s) stride)
                      + spanLengthAt n mtd (s + min (spanLengthAt n mtd s) stride))
                    ≤ s + spanLengthAt n mtd s := min_le_left _ _
                have h2 : (s + min (spanLengthAt n mtd s) stride : Int)
                    ≤ max s (s + min (spanLengthAt n mtd s) stride) := le_max_right _ _
                simp only []
                omega
            · exact hchain
    · simp only [docSpansLoopI, if_neg hs] at h
      have hspans : spans = [] := (Option.some.inj h).symm
      subst hspans
      exact List.chain'_nil

/-- With positive `max_tokens_for_doc` and `doc_stride`, the
sliding-window loop finishes once the fuel exceeds the remaining
document length (the start offset strictly increases each iteration). -/
theorem docSpansLoopI_term (n mtd stride : Int) (hm : 1 ≤ mtd) (hstr : 1 ≤ stride) :
    ∀ (fuel : Nat) (s : Int), (n - s).toNat < fuel →
      ∃ spans, docSpansLoopI n mtd stride s fuel = some spans := by
  intro fuel
  induction fuel with
  | zero => intro s h; omega
  | succ fuel ih =>
    intro s hfuel
    by_cases hs : s < n
    · by_cases hbr : s + spanLengthAt n mtd s = n
      · refine ⟨[⟨s, spanLengthAt n mtd s⟩], ?_⟩
        simp only [docSpansLoopI, if_pos hs, if_pos hbr]
      · have hlen := spanLengthAt_eq_mtd_of_nobreak n mtd s hbr
        have hmin : 1 ≤ min (spanLengthAt n mtd s) stride := le_min (by omega) hstr
        have hfuel' : (n - (s + min (spanLengthAt n mtd s) stride)).toNat < fuel := by
          omega
        obtain ⟨rest, hrest⟩ := ih (s + min (spanLengthAt n mtd s) stride) hfuel'
        refine ⟨⟨s, spanLengthAt n mtd s⟩ :: rest, ?_⟩
        simp only [docSpansLoopI, if_pos hs, if_neg hbr, hrest]
    · refine ⟨[], ?_⟩
      simp only [docSpansLoopI, if_neg hs]

/-- Claim C1, counterexample: (i) on an empty sub-word token list the
loop produces ZERO spans, not at least one (`while start_offset <
len(all_doc_tokens))` is false immediately); (ii) with
`doc_stride = 5 > max_tokens_for_doc = 3` on an 8-token document the
consecutive spans overlap in 0 positions, which is NOT at most
`max_tokens_for_doc - doc_stride = -2`. -/
theorem c1_counterexample :
    (docSpansLoopI 0 5 1 0 3 = some []) ∧
    (docSpansLoopI 8 3 5 0 9 = some [⟨0, 3⟩, ⟨3, 3⟩, ⟨6, 2⟩] ∧
      ¬ overlapLen ⟨0, 3⟩ ⟨3, 3⟩ ≤ (3 : Int) - 5) := by
  decide

/-- Claim C1 (amended): whenever the sliding-window loop finishes and
`1 ≤ doc_stride ≤ max_tokens_for_doc`, the union of the half-open
ranges `[span.start, span.start + span.length)` over the produced spans
equals `[0, len(all_doc_tokens))`, consecutive spans overlap in at most
`max_tokens_for_doc - doc_stride` positions, and at least one span is
produced exactly when the sub-word token list is non-empty (an empty
list yields zero spans). -/
theorem c1_doc_spans_coverage (n mtd stride : Int) (fuel : Nat) (spans : List DocSpan)
    (hstr : 1 ≤ stride) (hms : stride ≤ mtd)
    (h : docSpansLoopI n mtd stride 0 fuel = some spans) :
    (∀ p : Int, (0 ≤ p ∧ p < n) ↔ ∃ sp ∈ spans, containsTok sp p = true) ∧
    List.Chain' (fun a b => overlapLen a b ≤ mtd - stride) spans ∧
    (spans ≠ [] ↔ 0 < n) := by
  refine ⟨?_, docSpansLoopI_chain_overlap n mtd stride hms fuel 0 spans h, ?_, ?_⟩
  · intro p
    constructor
    · intro hp
      exact docSpansLoopI_cover n mtd stride fuel 0 spans h p hp.1 hp.2
    · rintro ⟨sp, hmem, hcont⟩
      have h1 := docSpansLoopI_start_mono n mtd stride hstr fuel 0 spans h sp hmem
      have h2 := docSpansLoopI_bounds n mtd stride fuel 0 spans h sp hmem
      simp only [containsTok, Bool.and_eq_true, decide_eq_true_eq] at hcont
      omega
  · intro hne
    by_contra hn0
    cases fuel with
    | zero => exact absurd h (by simp [docSpansLoopI])
    | succ fuel =>
      simp only [docSpansLoopI, if_neg hn0] at h
      exact hne (Option.some.inj h).symm
  · intro hn
    obtain ⟨sp, hmem, _⟩ := docSpansLoopI_cover n mtd stride fuel 0 spans h 0 (le_refl 0) hn
    intro hnil
    rw [hnil] at hmem
    exact absurd hmem (List.not_mem_nil sp)

/-- Witness for the amended claim C1 at a concrete input: a 4-token
document with `max_tokens_for_doc = 3` and `doc_stride = 1`. -/
theorem c1_witness :
    docSpansLoopI 4 3 1 0 10 = some [⟨0, 3⟩, ⟨1, 3⟩] ∧
    ((∀ p : Int, (0 ≤ p ∧ p < 4) ↔
        ∃ sp ∈ [(⟨0, 3⟩ : DocSpan), ⟨1, 3⟩], containsTok sp p = true) ∧
      List.Chain' (fun a b => overlapLen a b ≤ (3 : Int) - 1) [(⟨0, 3⟩ : DocSpan), ⟨1, 3⟩] ∧
      (([(⟨0, 3⟩ : DocSpan), ⟨1, 3⟩] ≠ []) ↔ (0 : Int) < 4)) :=
  ⟨by decide,
    c1_doc_spans_coverage 4 3 1 10 [⟨0, 3⟩, ⟨1, 3⟩] (by decide) (by decide) (by decide)⟩

/-- Claim C10: with `doc_stride ≥ 1` and `max_tokens_for_doc ≥ 1` the
sliding-window loop finishes for some fuel (it terminates: the start
offset strictly increases each iteration), while on a non-empty sub-word
document with `max_tokens_for_doc ≤ 0` it finishes under NO amount of
fuel (the start offset never increases, the loop never terminates). -/
theorem c10_span_loop_termination :
    (∀ n mtd stride : Int, 1 ≤ mtd → 1 ≤ stride →
      ∃ fuel : Nat, ∃ spans, docSpansLoopI n mtd stride 0 fuel = some spans) ∧
    (∀ n mtd stride : Int, 1 ≤ n → mtd ≤ 0 →
      ∀ fuel : Nat, docSpansLoopI n mtd stride 0 fuel = none) := by
  constructor
  · intro n mtd stride hm hstr
    exact ⟨(n - 0).toNat + 1,
      docSpansLoopI_term n mtd stride hm hstr ((n - 0).toNat + 1) 0 (by omega)⟩
  · intro n mtd stride hn hm fuel
    exact docSpansLoopI_div n mtd stride fuel 0 (by omega) hm

/-- Witness for claim C10 at concrete inputs: a 4-token document with
positive parameters terminates; a 3-token document with
`max_tokens_for_doc = 0` runs out of any amount of fuel. -/
theorem c10_witness :
    (∃ fuel : Nat, ∃ spans, docSpansLoopI 4 2 1 0 fuel = some spans) ∧
    docSpansLoopI 3 0 1 0 7 = none :=
  ⟨c10_span_loop_termination.1 4 2 1 (by decide) (by decide),
    c10_span_loop_termination.2 3 0 1 (by decide) (by decide) 7⟩

/-- The inner loop of `_improve_answer_span` returns the first matching
end index, paired with the fixed start index. -/
theorem improveInner_eq_find (dt : List String) (ta : String) (ns : Int) :
    ∀ l : List Int, improveInner dt ta ns l
      = (l.find? (fun ne => joinTokens (pySlice dt ns (ne + 1)) == ta)).map
          (fun ne => (ns, ne)) := by
  intro l
  induction l with
  | nil => rfl
  | cons ne rest ih =>
    by_cases h : joinTokens (pySlice dt ns (ne + 1)) = ta
    · rw [improveInner, if_pos h, List.find?_cons_of_pos _ (by simp [h])]
      rfl
    · rw [improveInner, if_neg h, List.find?_cons_of_neg _ (by simp [h]), ih]

/-- The nested loops of `_improve_answer_span` find the first match of
the flattened search-order candidate list. -/
theorem improveOuter_eq_find (dt : List String) (ta : String) (e : Int) :
    ∀ l : List Int, improveOuter dt ta e l
      = (l.flatMap (fun ns => (intRangeDown e (ns - 1)).map (fun ne => (ns, ne)))).find?
          (fun c => joinTokens (pySlice dt c.1 (c.2 + 1)) == ta) := by
  intro l
  induction l with
  | nil => rfl
  | cons ns rest ih =>
    rw [List.flatMap_cons, List.find?_append, List.find?_map]
    rw [improveOuter, improveInner_eq_find, ih]
    have hcomp : ((fun c : Int × Int => joinTokens (pySlice dt c.1 (c.2 + 1)) == ta)
        ∘ (fun ne : Int => (ns, ne)))
        = (fun ne : Int => joinTokens (pySlice dt ns (ne + 1)) == ta) := rfl
    rw [hcomp]
    cases (intRangeDown e (ns - 1)).find?
        (fun ne => joinTokens (pySlice dt ns (ne + 1)) == ta) with
    | none => rfl
    | some ne => rfl

/-- A non-empty ascending Python range starts at its left endpoint. -/
theorem intRange_head (a b : Int) (hab : a < b) : ∃ tl, intRange a b = a :: tl := by
  have hk : (b - a).toNat = (b - a - 1).toNat + 1 := by omega
  have h : intRange a b
      = a :: (List.map Nat.succ (List.range (b - a - 1).toNat)).map
          (fun i : Nat => a + (i : Int)) := by
    unfold intRange
    rw [hk, List.range_succ_eq_map, List.map_cons]
    simp only [Nat.cast_zero, add_zero]
  exact ⟨_, h⟩

/-- An empty ascending Python range. -/
theorem intRange_nil (a b : Int) (hab : b ≤ a) : intRange a b = [] := by
  unfold intRange
  have hk : (b - a).toNat = 0 := by omega
  rw [hk]
  rfl

/-- A non-empty descending Python range starts at its left endpoint. -/
theorem intRangeDown_head (a b : Int) (hab : b < a) :
    ∃ tl, intRangeDown a b = a :: tl := by
  have hk : (a - b).toNat = (a - b - 1).toNat + 1 := by omega
  have h : intRangeDown a b
      = a :: (List.map Nat.succ (List.range (a - b - 1).toNat)).map
          (fun i : Nat => a - (i : Int)) := by
    unfold intRangeDown
    rw [hk, List.range_succ_eq_map, List.map_cons]
    simp only [Nat.cast_zero, sub_zero]
  exact ⟨_, h⟩

/-- Claim C6: `_improve_answer_span` returns the first exact match in
the search order (start ascending, end descending from `input_end`),
else the original span — stated as agreement with the spec-side
`improveSpanSpec` — and in particular a span whose detokenized text
already equals the tokenized answer text is returned unchanged. -/
theorem c6_improve_answer_span_first_match (doc_tokens : List String)
    (input_start input_end : Int) (tokenizer : Tokenizer) (orig_answer_text : String) :
    _improve_answer_span doc_tokens input_start input_end tokenizer orig_answer_text
      = improveSpanSpec doc_tokens input_start input_end tokenizer orig_answer_text ∧
    (joinTokens (pySlice doc_tokens input_start (input_end + 1))
        = joinTokens (tokenizer.tokenize orig_answer_text) →
      _improve_answer_span doc_tokens input_start input_end tokenizer orig_answer_text
        = (input_start, input_end)) := by
  constructor
  · unfold _improve_answer_span improveSpanSpec improveSpanCandidates
    rw [improveOuter_eq_find]
  · intro hyp
    by_cases hse : input_start ≤ input_end
    · obtain ⟨tlo, hto⟩ := intRange_head input_start (input_end + 1) (by omega)
      obtain ⟨tli, hti⟩ := intRangeDown_head input_end (input_start - 1) (by omega)
      unfold _improve_answer_span
      rw [hto, improveOuter, hti, improveInner, if_pos hyp]
    · have hto : intRange input_start (input_end + 1) = [] := intRange_nil _ _ (by omega)
      unfold _improve_answer_span
      rw [hto]
      rfl

/-- Witness for claim C6: the already-matching span `[1, 1]` in the
document `["a", "b", "c", "d"]` with answer text `"b"` is returned
unchanged. -/
theorem c6_witness :
    joinTokens (pySlice ["a", "b", "c", "d"] 1 (1 + 1))
        = joinTokens (tkId.tokenize "b") ∧
    _improve_answer_span ["a", "b", "c", "d"] 1 1 tkId "b" = (1, 1) :=
  ⟨by decide, (c6_improve_answer_span_first_match ["a", "b", "c", "d"] 1 1 tkId "b").2
    (by decide)⟩

/-- Unfolding of a successful `convertExampleFeatures` call: the
sliding-window loop finished with exactly `exDocSpans`, and the features
are the features of those spans, in order. -/
theorem convertExampleFeatures_eq (tokenizer : Tokenizer) (msl : Nat) (stride : Int)
    (mql : Nat) (tr : Bool) (ex : SquadExample) (fuel : Nat) (feats : List Feature)
    (h : convertExampleFeatures tokenizer msl stride mql tr ex fuel = some feats) :
    docSpansLoopI ((allDocTokens tokenizer ex.doc_tokens).length : Int)
        (maxTokensForDoc msl (queryTokensOf tokenizer mql ex).length) stride 0 fuel
      = some (exDocSpans tokenizer msl stride mql ex fuel) ∧
    feats = (exDocSpans tokenizer msl stride mql ex fuel).enum.map (fun pr =>
      buildFeature tokenizer msl tr (queryTokensOf tokenizer mql ex)
        (allDocTokens tokenizer ex.doc_tokens) (tokToOrigIndex tokenizer ex.doc_tokens)
        (exDocSpans tokenizer msl stride mql ex fuel)
        (tokPositionsOf tr tokenizer ex).1 (tokPositionsOf tr tokenizer ex).2
        ex.is_impossible pr.1 pr.2) := by
  unfold convertExampleFeatures at h
  cases hL : docSpansLoopI ((allDocTokens tokenizer ex.doc_tokens).length : Int)
      (maxTokensForDoc msl (queryTokensOf tokenizer mql ex).length) stride 0 fuel with
  | none =>
    rw [hL] at h
    exact absurd h (by simp)
  | some ds =>
    rw [hL] at h
    have hex : exDocSpans tokenizer msl stride mql ex fuel = ds := by
      unfold exDocSpans
      rw [hL]
      rfl
    rw [hex]
    exact ⟨rfl, (Option.some.inj h).symm⟩

/-- The `j`-th feature of a successful call is the feature built for the
`j`-th generated span. -/
theorem convertExampleFeatures_getD (tokenizer : Tokenizer) (msl : Nat) (stride : Int)
    (mql : Nat) (tr : Bool) (ex : SquadExample) (fuel : Nat) (feats : List Feature)
    (h : convertExampleFeatures tokenizer msl stride mql tr ex fuel = some feats)
    (j : Nat) (hj : j < (exDocSpans tokenizer msl stride mql ex fuel).length) :
    feats.getD j default
      = buildFeature tokenizer msl tr (queryTokensOf tokenizer mql ex)
          (allDocTokens tokenizer ex.doc_tokens) (tokToOrigIndex tokenizer ex.doc_tokens)
          (exDocSpans tokenizer msl stride mql ex fuel)
          (tokPositionsOf tr tokenizer ex).1 (tokPositionsOf tr tokenizer ex).2
          ex.is_impossible j
          ((exDocSpans tokenizer msl stride mql ex fuel).get ⟨j, hj⟩) := by
  obtain ⟨-, hfeats⟩ := convertExampleFeatures_eq tokenizer msl stride mql tr ex fuel feats h
  subst hfeats
  have hj2 : j < ((exDocSpans tokenizer msl stride mql ex fuel).enum.map (fun pr =>
      buildFeature tokenizer msl tr (queryTokensOf tokenizer mql ex)
        (allDocTokens tokenizer ex.doc_tokens) (tokToOrigIndex tokenizer ex.doc_tokens)
        (exDocSpans tokenizer msl stride mql ex fuel)
        (tokPositionsOf tr tokenizer ex).1 (tokPositionsOf tr tokenizer ex).2
        ex.is_impossible pr.1 pr.2)).length := by
    simpa [List.enum_length] using hj
  rw [List.getD_eq_get _ _ hj2, List.get_eq_getElem, List.getElem_map,
    List.getElem_enum]
  rfl

/-- Padding preserves then fixes the list length. -/
theorem padTo_length {α : Type} (x : α) (m : Nat) (l : List α) :
    (padTo x m l).length = l.length + (m - l.length) := by
  simp [padTo]

/-- The three per-feature arrays of `buildFeature` all have length
`max_seq_length`, provided the unpadded token sequence fits. -/
theorem buildFeature_lengths (tokenizer : Tokenizer) (msl : Nat) (tr : Bool)
    (qts adts : List String) (t2o : List Nat) (ds : List DocSpan) (ts te : Int)
    (imp : Bool) (j : Nat) (sp : DocSpan)
    (hle : qts.length + 3 + sp.length.toNat ≤ msl) :
    (buildFeature tokenizer msl tr qts adts t2o ds ts te imp j sp).input_ids.length = msl ∧
    (buildFeature tokenizer msl tr qts adts t2o ds ts te imp j sp).input_mask.length = msl ∧
    (buildFeature tokenizer msl tr qts adts t2o ds ts te imp j sp).segment_ids.length
      = msl := by
  unfold buildFeature
  simp only [padTo, List.length_append, List.length_map, List.length_cons,
    List.length_replicate, List.length_range, List.length_singleton, List.length_nil]
  omega

/-- All features of one example have the three per-feature arrays at
exactly `max_seq_length`. -/
theorem convertExampleFeatures_lengths (tokenizer : Tokenizer) (msl : Nat) (stride : Int)
    (mql : Nat) (tr : Bool) (ex : SquadExample) (fuel : Nat) (feats : List Feature)
    (h : convertExampleFeatures tokenizer msl stride mql tr ex fuel = some feats) :
    ∀ f ∈ feats, f.input_ids.length = msl ∧ f.input_mask.length = msl ∧
      f.segment_ids.length = msl := by
  obtain ⟨hL, hfeats⟩ := convertExampleFeatures_eq tokenizer msl stride mql tr ex fuel feats h
  subst hfeats
  intro f hf
  obtain ⟨pr, hpr, hfe⟩ := List.mem_map.mp hf
  obtain ⟨i, sp⟩ := pr
  have hget : (exDocSpans tokenizer msl stride mql ex fuel)[i]? = some sp :=
    List.mem_enum_iff_getElem?.mp hpr
  have hmem : sp ∈ exDocSpans tokenizer msl stride mql ex fuel := List.getElem?_mem hget
  have hbounds := docSpansLoopI_bounds _ _ stride fuel 0 _ hL sp hmem
  have hle : (queryTokensOf tokenizer mql ex).length + 3 + sp.length.toNat ≤ msl := by
    have h2 := hbounds.2.1
    unfold maxTokensForDoc at h2
    have h1 := hbounds.1
    omega
  rw [← hfe]
  exact buildFeature_lengths tokenizer msl tr _ _ _ _ _ _ _ i sp hle

/-- Claim C5: every feature produced by `convert_examples_to_features`
has `len(input_ids) = len(input_mask) = len(segment_ids) =
max_seq_length` — the three assertions after zero-padding (lines
239-241) never fail for any produced feature, whatever the examples,
tokenizer and parameters. -/
theorem c5_feature_lengths (tokenizer : Tokenizer) (msl : Nat) (stride : Int)
    (mql : Nat) (tr : Bool) (fuel : Nat) :
    ∀ (examples : List SquadExample) (feats : List Feature),
      convert_examples_to_features examples tokenizer msl stride mql tr fuel
        = some feats →
      ∀ f ∈ feats, f.input_ids.length = msl ∧ f.input_mask.length = msl ∧
        f.segment_ids.length = msl := by
  intro examples
  induction examples with
  | nil =>
    intro feats h f hf
    have hfe : feats = [] := by
      have h' : some ([] : List Feature) = some feats := h
      exact (Option.some.inj h').symm
    subst hfe
    exact absurd hf (List.not_mem_nil f)
  | cons ex rest ih =>
    intro feats h f hf
    unfold convert_examples_to_features at h
    cases hex : convertExampleFeatures tokenizer msl stride mql tr ex fuel with
    | none => rw [hex] at h; exact absurd h (by simp)
    | some fs =>
      rw [hex] at h
      cases hrest : convert_examples_to_features rest tokenizer msl stride mql tr fuel with
      | none => rw [hrest] at h; exact absurd h (by simp)
      | some others =>
        rw [hrest] at h
        have hfe : feats = fs ++ others := by
          have h' : some (fs ++ others) = some feats := h
          exact (Option.some.inj h').symm
        subst hfe
        rcases List.mem_append.mp hf with h1 | h2
        · exact convertExampleFeatures_lengths tokenizer msl stride mql tr ex fuel fs
            hex f h1
        · exact ih others hrest f h2

/-- Witness for claim C5 at a concrete input: a one-example corpus with
`max_seq_length = 7` produces features whose arrays all have length 7. -/
theorem c5_witness :
    convert_examples_to_features [exW] tkId 7 1 64 true 10
        = some ((convert_examples_to_features [exW] tkId 7 1 64 true 10).getD []) ∧
    (((convert_examples_to_features [exW] tkId 7 1 64 true 10).getD []).getD 0
        default).input_ids.length = 7 :=
  ⟨rfl, (c5_feature_lengths tkId 7 1 64 true 10 [exW] _ rfl _ (by decide)).1⟩

/-- Labels of a training-mode feature of an impossible example: both
point at `[CLS]` (index 0). -/
theorem buildFeature_labels_imp (tokenizer : Tokenizer) (msl : Nat)
    (qts adts : List String) (t2o : List Nat) (ds : List DocSpan) (ts te : Int)
    (j : Nat) (sp : DocSpan) :
    (buildFeature tokenizer msl true qts adts t2o ds ts te true j sp).start_position
        = some 0 ∧
    (buildFeature tokenizer msl true qts adts t2o ds ts te true j sp).end_position
        = some 0 := by
  unfold buildFeature
  simp

/-- Labels of a training-mode feature whose refined answer span is not
fully inside the document span: both point at `[CLS]`. -/
theorem buildFeature_labels_out (tokenizer : Tokenizer) (msl : Nat)
    (qts adts : List String) (t2o : List Nat) (ds : List DocSpan) (ts te : Int)
    (j : Nat) (sp : DocSpan)
    (hout : ¬ (sp.start ≤ ts ∧ te ≤ sp.start + sp.length - 1)) :
    (buildFeature tokenizer msl true qts adts t2o ds ts te false j sp).start_position
        = some 0 ∧
    (buildFeature tokenizer msl true qts adts t2o ds ts te false j sp).end_position
        = some 0 := by
  unfold buildFeature
  rcases not_and_or.mp hout with hA | hB
  · have hd : decide (ts ≥ sp.start) = false := by simp [hA]
    simp [hd]
  · have hd : decide (te ≤ sp.start + sp.length - 1) = false := by simp [hB]
    simp [hd]

/-- Labels of a training-mode feature whose refined answer span lies
inside the document span: both are offset by `len(query_tokens) + 2`. -/
theorem buildFeature_labels_in (tokenizer : Tokenizer) (msl : Nat)
    (qts adts : List String) (t2o : List Nat) (ds : List DocSpan) (ts te : Int)
    (j : Nat) (sp : DocSpan)
    (hA : sp.start ≤ ts) (hB : te ≤ sp.start + sp.length - 1) :
    (buildFeature tokenizer msl true qts adts t2o ds ts te false j sp).start_position
        = some (ts - sp.start + (qts.length + 2)) ∧
    (buildFeature tokenizer msl true qts adts t2o ds ts te false j sp).end_position
        = some (te - sp.start + (qts.length + 2)) := by
  unfold buildFeature
  have h1 : decide (ts ≥ sp.start) = true := by simp [hA]
  have h2 : decide (te ≤ sp.start + sp.length - 1) = true := by simp [hB]
  simp [h1, h2]

/-- Claim C4: for every feature built in training mode, if the example
is impossible or the refined sub-word answer span `[ts, te]` does not
lie entirely within `[doc_span.start, doc_span.start+doc_span.length-1]`
then `start_position = end_position = 0`; otherwise
`start_position = ts - doc_span.start + len(query_tokens) + 2` and
`end_position = te - doc_span.start + len(query_tokens) + 2`. -/
theorem c4_training_labels (tokenizer : Tokenizer) (msl : Nat) (stride : Int)
    (mql : Nat) (ex : SquadExample) (fuel : Nat) (feats : List Feature)
    (h : convertExampleFeatures tokenizer msl stride mql true ex fuel = some feats)
    (j : Nat) (hj : j < (exDocSpans tokenizer msl stride mql ex fuel).length) :
    ((ex.is_impossible = true ∨
        ¬ (((exDocSpans tokenizer msl stride mql ex fuel).get ⟨j, hj⟩).start
              ≤ (refinedTokPositions tokenizer ex).1 ∧
            (refinedTokPositions tokenizer ex).2
              ≤ ((exDocSpans tokenizer msl stride mql ex fuel).get ⟨j, hj⟩).start
                + ((exDocSpans tokenizer msl stride mql ex fuel).get ⟨j, hj⟩).length
                - 1)) →
      (feats.getD j default).start_position = some 0 ∧
      (feats.getD j default).end_position = some 0) ∧
    (ex.is_impossible = false →
      ((exDocSpans tokenizer msl stride mql ex fuel).get ⟨j, hj⟩).start
          ≤ (refinedTokPositions tokenizer ex).1 →
      (refinedTokPositions tokenizer ex).2
          ≤ ((exDocSpans tokenizer msl stride mql ex fuel).get ⟨j, hj⟩).start
            + ((exDocSpans tokenizer msl stride mql ex fuel).get ⟨j, hj⟩).length - 1 →
      (feats.getD j default).start_position
          = some ((refinedTokPositions tokenizer ex).1
              - ((exDocSpans tokenizer msl stride mql ex fuel).get ⟨j, hj⟩).start
              + ((queryTokensOf tokenizer mql ex).length + 2)) ∧
      (feats.getD j default).end_position
          = some ((refinedTokPositions tokenizer ex).2
              - ((exDocSpans tokenizer msl stride mql ex fuel).get ⟨j, hj⟩).start
              + ((queryTokensOf tokenizer mql ex).length + 2))) := by
  rw [convertExampleFeatures_getD tokenizer msl stride mql true ex fuel feats h j hj]
  cases himp : ex.is_impossible with
  | true =>
    constructor
    · intro _
      have htste : tokPositionsOf true tokenizer ex = ((-1 : Int), (-1 : Int)) := by
        unfold tokPositionsOf
        rw [himp]
        simp
      rw [htste]
      exact buildFeature_labels_imp tokenizer msl _ _ _ _ (-1) (-1) j _
    · intro hfalse
      exact absurd hfalse (by simp)
  | false =>
    have htste : tokPositionsOf true tokenizer ex = refinedTokPositions tokenizer ex := by
      unfold tokPositionsOf
      rw [himp]
      simp
    rw [htste]
    constructor
    · rintro (habs | hout)
      · exact absurd habs (by simp)
      · exact buildFeature_labels_out tokenizer msl _ _ _ _ _ _ j _ hout
    · intro _ hA hB
      exact buildFeature_labels_in tokenizer msl _ _ _ _ _ _ j _ hA hB

/-- Witness for claim C4 at a concrete training example: the answer
`"b"` at sub-word span `[1, 1]` inside the first window `(0, 3)` of a
4-token document with one query token is labeled `1 - 0 + (1 + 2) = 4`. -/
theorem c4_witness :
    (((convertExampleFeatures tkId 7 1 64 true exW 10).getD []).getD 0
        default).start_position = some 4 ∧
    (((convertExampleFeatures tkId 7 1 64 true exW 10).getD []).getD 0
        default).end_position = some 4 := by
  have h := (c4_training_labels tkId 7 1 64 exW 10
      ((convertExampleFeatures tkId 7 1 64 true exW 10).getD []) rfl 0 (by decide)).2
      rfl (by decide) (by decide)
  refine ⟨?_, ?_⟩
  · rw [h.1]
    decide
  · rw [h.2]
    decide

/-- The `token_is_max_context` field of a built feature is exactly the
entry list of lines 215-221. -/
theorem buildFeature_token_is_max_context (tokenizer : Tokenizer) (msl : Nat) (tr : Bool)
    (qts adts : List String) (t2o : List Nat) (ds : List DocSpan) (ts te : Int)
    (imp : Bool) (j : Nat) (sp : DocSpan) :
    (buildFeature tokenizer msl tr qts adts t2o ds ts te imp j sp).token_is_max_context
      = tokenIsMaxContextEntries ds j sp qts.length := rfl

/-- For a position inside the span, the entry list records `true` at the
position's key exactly when `_check_is_max_context` answers true. -/
theorem mem_tokenIsMaxContextEntries (ds : List DocSpan) (j : Nat) (sp : DocSpan)
    (qlen : Nat) (p : Int) (hcov : containsTok sp p = true) :
    ((qlen + 2 + (p - sp.start).toNat, true) ∈ tokenIsMaxContextEntries ds j sp qlen
      ↔ _check_is_max_context ds j p = true) := by
  have hcov' : sp.start ≤ p ∧ p ≤ sp.start + sp.length - 1 := by
    simpa only [containsTok, Bool.and_eq_true, decide_eq_true_eq] using hcov
  unfold tokenIsMaxContextEntries
  constructor
  · intro hmem
    obtain ⟨i, hi, heq⟩ := List.mem_map.mp hmem
    rw [List.mem_range] at hi
    rw [Prod.mk.injEq] at heq
    obtain ⟨hkey, hchk⟩ := heq
    have hieq : i = (p - sp.start).toNat := by omega
    have hip : sp.start + (i : Int) = p := by omega
    rw [hip] at hchk
    exact hchk
  · intro hcheck
    refine List.mem_map.mpr ⟨(p - sp.start).toNat, ?_, ?_⟩
    · rw [List.mem_range]
      omega
    · have hp : sp.start + (((p - sp.start).toNat : Nat) : Int) = p := by omega
      rw [hp, hcheck]

/-- Claim C3: in any successfully converted example, for every sub-word
token position contained in at least two of the generated sliding-window
spans, exactly one of the covering spans records
`token_is_max_context = true` for that position in its emitted feature;
every other covering span records a value that is not `true`. -/
theorem c3_max_context_unique (tokenizer : Tokenizer) (msl : Nat) (stride : Int)
    (mql : Nat) (tr : Bool) (ex : SquadExample) (fuel : Nat) (feats : List Feature)
    (h : convertExampleFeatures tokenizer msl stride mql tr ex fuel = some feats)
    (p : Int)
    (hcov2 : ∃ a b : Fin (exDocSpans tokenizer msl stride mql ex fuel).length,
      a ≠ b ∧ containsTok ((exDocSpans tokenizer msl stride mql ex fuel).get a) p = true ∧
        containsTok ((exDocSpans tokenizer msl stride mql ex fuel).get b) p = true) :
    ∃ j : Fin (exDocSpans tokenizer msl stride mql ex fuel).length,
      containsTok ((exDocSpans tokenizer msl stride mql ex fuel).get j) p = true ∧
      ((queryTokensOf tokenizer mql ex).length + 2
          + (p - ((exDocSpans tokenizer msl stride mql ex fuel).get j).start).toNat, true)
          ∈ (feats.getD j.1 default).token_is_max_context ∧
      ∀ j' : Fin (exDocSpans tokenizer msl stride mql ex fuel).length,
        containsTok ((exDocSpans tokenizer msl stride mql ex fuel).get j') p = true →
        ((queryTokensOf tokenizer mql ex).length + 2
            + (p - ((exDocSpans tokenizer msl stride mql ex fuel).get j').start).toNat, true)
            ∈ (feats.getD j'.1 default).token_is_max_context →
        j' = j := by
  obtain ⟨a, b, hab, hca, hcb⟩ := hcov2
  obtain ⟨j, hcj, hcheck, huniq⟩ :=
    check_is_max_context_exists_unique (exDocSpans tokenizer msl stride mql ex fuel) p
      ⟨a, hca⟩
  refine ⟨j, hcj, ?_, ?_⟩
  · rw [convertExampleFeatures_getD tokenizer msl stride mql tr ex fuel feats h j.1 j.2,
      buildFeature_token_is_max_context]
    exact (mem_tokenIsMaxContextEntries _ j.1 _ _ p hcj).mpr hcheck
  · intro j' hcj' hmem
    rw [convertExampleFeatures_getD tokenizer msl stride mql tr ex fuel feats h j'.1 j'.2,
      buildFeature_token_is_max_context] at hmem
    have hchk' := (mem_tokenIsMaxContextEntries _ j'.1 _ _ p hcj').mp hmem
    exact Fin.ext (huniq j'.1 hchk')

/-- Witness for claim C3 at a concrete input: position 1 of the 4-token
document is covered by both generated spans `(0,3)` and `(1,3)`, and
exactly one feature marks it as max-context. -/
theorem c3_witness :
    convertExampleFeatures tkId 7 1 64 true exW 10
        = some ((convertExampleFeatures tkId 7 1 64 true exW 10).getD []) ∧
    (∃ a b : Fin (exDocSpans tkId 7 1 64 exW 10).length,
      a ≠ b ∧ containsTok ((exDocSpans tkId 7 1 64 exW 10).get a) 1 = true ∧
        containsTok ((exDocSpans tkId 7 1 64 exW 10).get b) 1 = true) ∧
    (∃ j : Fin (exDocSpans tkId 7 1 64 exW 10).length,
      containsTok ((exDocSpans tkId 7 1 64 exW 10).get j) 1 = true ∧
      ((queryTokensOf tkId 64 exW).length + 2
          + ((1 : Int) - ((exDocSpans tkId 7 1 64 exW 10).get j).start).toNat, true)
          ∈ (((convertExampleFeatures tkId 7 1 64 true exW 10).getD []).getD j.1
              default).token_is_max_context ∧
      ∀ j' : Fin (exDocSpans tkId 7 1 64 exW 10).length,
        containsTok ((exDocSpans tkId 7 1 64 exW 10).get j') 1 = true →
        ((queryTokensOf tkId 64 exW).length + 2
            + ((1 : Int) - ((exDocSpans tkId 7 1 64 exW 10).get j').start).toNat, true)
            ∈ (((convertExampleFeatures tkId 7 1 64 true exW 10).getD []).getD j'.1
                default).token_is_max_context →
        j' = j) :=
  ⟨rfl, by decide,
    c3_max_context_unique tkId 7 1 64 true exW 10
      ((convertExampleFeatures tkId 7 1 64 true exW 10).getD []) rfl 1 (by decide)⟩

/-- A training question that is not impossible and does not have exactly
one answer raises the `ValueError` of lines 347-349. -/
theorem processQA_error_of_multi (dt : List String) (offs : List Int) (qa : QA)
    (himp : qa.is_impossible = false) (hmulti : qa.answers.length ≠ 1) :
    processQA dt offs true qa
      = .error "For training, each question should have exactly 1 answer." := by
  unfold processQA
  rw [if_pos (by exact rfl), if_pos ⟨hmulti, himp⟩]

/-- A training question with exactly one answer never raises. -/
theorem processQA_ok_of_single (dt : List String) (offs : List Int) (qa : QA)
    (hone : qa.answers.length = 1) :
    ∃ r, processQA dt offs true qa = .ok r := by
  unfold processQA
  rw [if_pos (by exact rfl), if_neg (by simp [hone])]
  by_cases himp : qa.is_impossible = false
  · rw [if_pos himp]
    by_cases hchk : hasSubstring (qaActualText dt offs qa) (qaCleanedText qa) = false
    · rw [if_pos hchk]
      exact ⟨none, rfl⟩
    · rw [if_neg hchk]
      exact ⟨_, rfl⟩
  · rw [if_neg himp]
    exact ⟨_, rfl⟩

/-- If some training question of the list is not impossible and has more
than one answer, the whole question loop aborts with an error. -/
theorem readQAs_error_of_multi (dt : List String) (offs : List Int) :
    ∀ qas : List QA,
      (∃ qa ∈ qas, qa.is_impossible = false ∧ 1 < qa.answers.length) →
      ∃ msg, readQAs dt offs true qas = .error msg := by
  intro qas
  induction qas with
  | nil => rintro ⟨qa, hmem, -⟩; exact absurd hmem (List.not_mem_nil qa)
  | cons q rest ih =>
    rintro ⟨qa, hmem, himp, hmulti⟩
    rcases List.mem_cons.mp hmem with hq | hq
    · subst hq
      refine ⟨"For training, each question should have exactly 1 answer.", ?_⟩
      have hp := processQA_error_of_multi dt offs qa himp (by omega)
      simp only [readQAs, hp]
      rfl
    · cases hp : processQA dt offs true q with
      | error e => exact ⟨e, by simp only [readQAs, hp]; rfl⟩
      | ok o =>
        obtain ⟨msg, hmsg⟩ := ih ⟨qa, hq, himp, hmulti⟩
        exact ⟨msg, by simp only [readQAs, hp, hmsg]; rfl⟩

/-- If every question of the list has exactly one answer, the question
loop finishes without error. -/
theorem readQAs_ok_of_single (dt : List String) (offs : List Int) :
    ∀ qas : List QA, (∀ qa ∈ qas, qa.answers.length = 1) →
      ∃ res, readQAs dt offs true qas = .ok res := by
  intro qas
  induction qas with
  | nil => intro _; exact ⟨[], rfl⟩
  | cons q rest ih =>
    intro hall
    obtain ⟨r, hr⟩ := processQA_ok_of_single dt offs q (hall q (List.mem_cons_self q rest))
    obtain ⟨res, hres⟩ := ih (fun qa hqa => hall qa (List.mem_cons_of_mem q hqa))
    cases r with
    | none => exact ⟨res, by simp only [readQAs, hr, hres]; rfl⟩
    | some e => exact ⟨e :: res, by simp only [readQAs, hr, hres]; rfl⟩

/-- Error propagation through the paragraph loop. -/
theorem readParagraphs_error (tr : Bool) :
    ∀ ps : List Paragraph,
      (∃ pa ∈ ps, ∃ msg, readParagraph tr pa = .error msg) →
      ∃ msg, readParagraphs tr ps = .error msg := by
  intro ps
  induction ps with
  | nil => rintro ⟨pa, hmem, -⟩; exact absurd hmem (List.not_mem_nil pa)
  | cons p rest ih =>
    rintro ⟨pa, hmem, msg, hmsg⟩
    rcases List.mem_cons.mp hmem with hp | hp
    · subst hp
      exact ⟨msg, by simp only [readParagraphs, hmsg]; rfl⟩
    · cases hp2 : readParagraph tr p with
      | error e => exact ⟨e, by simp only [readParagraphs, hp2]; rfl⟩
      | ok xs =>
        obtain ⟨msg2, hmsg2⟩ := ih ⟨pa, hp, msg, hmsg⟩
        exact ⟨msg2, by simp only [readParagraphs, hp2, hmsg2]; rfl⟩

/-- Success propagation through the paragraph loop. -/
theorem readParagraphs_ok (tr : Bool) :
    ∀ ps : List Paragraph,
      (∀ pa ∈ ps, ∃ res, readParagraph tr pa = .ok res) →
      ∃ res, readParagraphs tr ps = .ok res := by
  intro ps
  induction ps with
  | nil => intro _; exact ⟨[], rfl⟩
  | cons p rest ih =>
    intro hall
    obtain ⟨xs, hxs⟩ := hall p (List.mem_cons_self p rest)
    obtain ⟨res, hres⟩ := ih (fun pa hpa => hall pa (List.mem_cons_of_mem p hpa))
    exact ⟨xs ++ res, by simp only [readParagraphs, hxs, hres]; rfl⟩

/-- Claim C7: in training mode, a question that is not marked impossible
and supplies more than one answer makes `read_squad_examples` raise (the
run aborts and no example list is returned), while inputs whose
questions all have exactly one answer never trigger this error. -/
theorem c7_multi_answer_fatal :
    (∀ input_data : List Entry,
      (∃ e ∈ input_data, ∃ pa ∈ e.paragraphs, ∃ qa ∈ pa.qas,
        qa.is_impossible = false ∧ 1 < qa.answers.length) →
      ∃ msg, read_squad_examples input_data true = .error msg) ∧
    (∀ input_data : List Entry,
      (∀ e ∈ input_data, ∀ pa ∈ e.paragraphs, ∀ qa ∈ pa.qas, qa.answers.length = 1) →
      ∃ res, read_squad_examples input_data true = .ok res) := by
  constructor
  · intro input_data hbad
    obtain ⟨e, he, pa, hpa, qa, hqa, himp, hmulti⟩ := hbad
    unfold read_squad_examples
    apply readParagraphs_error
    refine ⟨pa, List.mem_flatMap.mpr ⟨e, he, hpa⟩, ?_⟩
    unfold readParagraph
    exact readQAs_error_of_multi _ _ pa.qas ⟨qa, hqa, himp, hmulti⟩
  · intro input_data hgood
    unfold read_squad_examples
    apply readParagraphs_ok
    intro pa hpa
    obtain ⟨e, he, hpae⟩ := List.mem_flatMap.mp hpa
    unfold readParagraph
    exact readQAs_ok_of_single _ _ pa.qas (fun qa hqa => hgood e he pa hpae qa hqa)

/-- Witness for claim C7 at concrete inputs: a two-answer non-impossible
training question aborts the reader, a one-answer input does not. -/
theorem c7_witness :
    (∃ msg, read_squad_examples dataBad true = Except.error msg) ∧
    (∃ res, read_squad_examples dataGood true = Except.ok res) :=
  ⟨c7_multi_answer_fatal.1 dataBad (by decide),
    c7_multi_answer_fatal.2 dataGood (by decide)⟩

/-- Claim C8: during training reading, a question that is not impossible,
has its single answer, and whose reconstructed document text does not
contain the cleaned answer text is skipped (`.ok none`, the `continue`
of line 371), and removing it from the question list leaves the reader's
result — including every previously accumulated example — unchanged;
processing continues without an error. -/
theorem c8_unrecoverable_answer_skipped (dt : List String) (offs : List Int)
    (qs1 qs2 : List QA) (qa : QA)
    (himp : qa.is_impossible = false)
    (hone : qa.answers.length = 1)
    (hfail : hasSubstring (qaActualText dt offs qa) (qaCleanedText qa) = false) :
    processQA dt offs true qa = .ok none ∧
    readQAs dt offs true (qs1 ++ qa :: qs2) = readQAs dt offs true (qs1 ++ qs2) := by
  have hproc : processQA dt offs true qa = .ok none := by
    unfold processQA
    rw [if_pos (by exact rfl), if_neg (by simp [hone]), if_pos himp, if_pos hfail]
  refine ⟨hproc, ?_⟩
  induction qs1 with
  | nil =>
    simp only [List.nil_append, readQAs, hproc]
    cases hr : readQAs dt offs true qs2 with
    | error e => rfl
    | ok res => rfl
  | cons q rest ih =>
    simp only [List.cons_append, readQAs]
    cases hq : processQA dt offs true q with
    | error e => rfl
    | ok o =>
      have ih' : readQAs dt offs true (rest.append (qa :: qs2))
          = readQAs dt offs true (rest.append qs2) := ih
      rw [ih']

/-- Witness for claim C8 at a concrete input: the question whose answer
text `"xyz"` is not recoverable from `"hello world"` is skipped, and the
reader's output equals the output without that question. -/
theorem c8_witness :
    processQA dtW offsW true qaSkip = Except.ok none ∧
    readQAs dtW offsW true [qaKeep, qaSkip] = readQAs dtW offsW true [qaKeep] :=
  c8_unrecoverable_answer_skipped dtW offsW [qaKeep] [] qaSkip rfl rfl (by decide)

/-- Claim C9 (the code contradicts it): the materializer loop of
`process_set` iterates over a name `train_features` that is never bound,
so every call raises `NameError` before emitting any `y1`/`y2` or
persisting any array; the modelled `process_set` is that constant
error. -/
theorem c9_process_set_name_error :
    ∀ features : List Feature,
      process_set features
        = Except.error "NameError: name 'train_features' is not defined" := by
  intro features
  rfl
